import Mathlib

/-!
Shallow embedding of the game-hook discovery and class-matching tool of
HighliteDesktop (`src/ast/highSpellWalker.ts`) together with the client
fetcher (`src/utils/clientUtils.ts`), and proofs about the behaviour the
specification describes.

Modelling conventions:
* JS `Set<string>` values are modelled as insertion-ordered duplicate-free
  lists (`List String`); `Set.add` appends when the element is absent.
* JS `Map`/object maps are modelled as insertion-ordered association lists
  or as functions `String → Option _` where only per-key lookup matters.
* Scores are natural numbers (the scorer only adds positive weights).
* Line numbers are pure bookkeeping echoed into the report; they are not
  consumed by any aggregate or decision, so they are omitted from the model.
-/

namespace Highlite

/-- JS `Set.add` on a set modelled as an insertion-ordered duplicate-free
list: append when absent. -/
def ssetAdd (s : List String) (x : String) : List String :=
  if x ∈ s then s else s ++ [x]

/-- `ClientClass` from `highSpellWalker.ts` (lines 29-37): a candidate class
reconstructed from the minified client. -/
structure ClientClass where
  name : String
  properties : List String
  methods : List String
  staticProperties : List String
  staticMethods : List String
  hasInstance : Bool
  hasManager : Bool
deriving DecidableEq, Repr

/-- The per-hook-name aggregate `GameHookUsage[hookName]` (lines 18-27). -/
structure HookUsageEntry where
  properties : List String
  methods : List String
  fullExpressions : List String
  files : List String
  fromDirectAccess : Bool
  fromHookRegistration : Bool
deriving DecidableEq, Repr

/-- `KnownClassInfo` (lines 49-56): curated expectations for one hook name.
Optional fields mirror the TS optional (`?:`) fields. -/
structure KnownClassInfo where
  className : String
  methods : Option (List String) := none
  properties : Option (List String) := none
  staticMethods : Option (List String) := none
  staticProperties : Option (List String) := none
  description : Option String := none
deriving DecidableEq, Repr

/-- The curated table `knownClassInfo` (lines 74-81). -/
def knownClassInfo : List KnownClassInfo :=
  [{ className := "ChatManager"
     properties := some ["Instance", "_friends"]
     staticProperties := some ["Instance"]
     description := some "Manages chat functionality and friends list" }]

/-- `ClassMatch` (lines 39-47). -/
structure ClassMatch where
  hookName : String
  clientClassName : String
  matchScore : Nat
  matchedProperties : List String
  matchedMethods : List String
  missingProperties : List String
  missingMethods : List String
deriving DecidableEq, Repr

/-- Mutable locals of `calculateMatchScore` while its loops run. -/
structure ScoreState where
  matchedProperties : List String
  matchedMethods : List String
  missingProperties : List String
  missingMethods : List String
  score : Nat
deriving DecidableEq, Repr

/-- Loop body of lines 782-789: a usage-derived required property. -/
def reqPropStep (clientClass : ClientClass) (st : ScoreState) (prop : String) : ScoreState :=
  if clientClass.properties.contains prop || clientClass.staticProperties.contains prop then
    { st with matchedProperties := st.matchedProperties ++ [prop], score := st.score + 2 }
  else
    { st with missingProperties := st.missingProperties ++ [prop] }

/-- Loop body of lines 792-799: a usage-derived required method. -/
def reqMethodStep (clientClass : ClientClass) (st : ScoreState) (meth : String) : ScoreState :=
  if clientClass.methods.contains meth || clientClass.staticMethods.contains meth then
    { st with matchedMethods := st.matchedMethods ++ [meth], score := st.score + 1 }
  else
    { st with missingMethods := st.missingMethods ++ [meth] }

/-- Loop body of lines 805-816: a curated (known) property. The dedup guard
only affects `matchedProperties`; the `score += 3` is unconditional. -/
def knownPropStep (clientClass : ClientClass) (requiredProperties : List String)
    (st : ScoreState) (prop : String) : ScoreState :=
  if clientClass.properties.contains prop || clientClass.staticProperties.contains prop then
    { st with
      matchedProperties :=
        if st.matchedProperties.contains prop then st.matchedProperties
        else st.matchedProperties ++ [prop]
      score := st.score + 3 }
  else if !(requiredProperties.contains prop) then
    { st with missingProperties := st.missingProperties ++ [prop] }
  else st

/-- Loop body of lines 819-830: a curated static property. -/
def knownStaticPropStep (clientClass : ClientClass) (requiredProperties : List String)
    (st : ScoreState) (prop : String) : ScoreState :=
  if clientClass.staticProperties.contains prop then
    { st with
      matchedProperties :=
        if st.matchedProperties.contains prop then st.matchedProperties
        else st.matchedProperties ++ [prop]
      score := st.score + 3 }
  else if !(requiredProperties.contains prop) then
    { st with missingProperties := st.missingProperties ++ [prop] }
  else st

/-- Loop body of lines 833-844: a curated method. -/
def knownMethodStep (clientClass : ClientClass) (requiredMethods : List String)
    (st : ScoreState) (meth : String) : ScoreState :=
  if clientClass.methods.contains meth || clientClass.staticMethods.contains meth then
    { st with
      matchedMethods :=
        if st.matchedMethods.contains meth then st.matchedMethods
        else st.matchedMethods ++ [meth]
      score := st.score + 2 }
  else if !(requiredMethods.contains meth) then
    { st with missingMethods := st.missingMethods ++ [meth] }
  else st

/-- Loop body of lines 847-858: a curated static method. -/
def knownStaticMethodStep (clientClass : ClientClass) (requiredMethods : List String)
    (st : ScoreState) (meth : String) : ScoreState :=
  if clientClass.staticMethods.contains meth then
    { st with
      matchedMethods :=
        if st.matchedMethods.contains meth then st.matchedMethods
        else st.matchedMethods ++ [meth]
      score := st.score + 2 }
  else if !(requiredMethods.contains meth) then
    { st with missingMethods := st.missingMethods ++ [meth] }
  else st

/-- `knownClassInfo.find(info => info.className === hookName)` (line 802). -/
def curatedInfo (hookName : String) : Option KnownClassInfo :=
  knownClassInfo.find? (fun info => info.className == hookName)

/-- `calculateMatchScore` (lines 770-879), translated loop by loop. -/
def calculateMatchScore (hookUsage : HookUsageEntry) (clientClass : ClientClass)
    (hookName : String) : ClassMatch :=
  let requiredProperties := hookUsage.properties
  let requiredMethods := hookUsage.methods
  let st0 : ScoreState :=
    { matchedProperties := [], matchedMethods := []
      missingProperties := [], missingMethods := [], score := 0 }
  let st1 := requiredProperties.foldl (reqPropStep clientClass) st0
  let st2 := requiredMethods.foldl (reqMethodStep clientClass) st1
  let st3 :=
    match curatedInfo hookName with
    | none => st2
    | some knownInfo =>
      let sA := match knownInfo.properties with
        | none => st2
        | some props => props.foldl (knownPropStep clientClass requiredProperties) st2
      let sB := match knownInfo.staticProperties with
        | none => sA
        | some props => props.foldl (knownStaticPropStep clientClass requiredProperties) sA
      let sC := match knownInfo.methods with
        | none => sB
        | some ms => ms.foldl (knownMethodStep clientClass requiredMethods) sB
      let sD := match knownInfo.staticMethods with
        | none => sC
        | some ms => ms.foldl (knownStaticMethodStep clientClass requiredMethods) sC
      sD
  let score1 :=
    if requiredProperties.contains "Instance" && clientClass.hasInstance then st3.score + 5
    else st3.score
  let score2 :=
    if requiredProperties.contains "Manager" && clientClass.hasManager then score1 + 3
    else score1
  { hookName := hookName
    clientClassName := clientClass.name
    matchScore := score2
    matchedProperties := st3.matchedProperties
    matchedMethods := st3.matchedMethods
    missingProperties := st3.missingProperties
    missingMethods := st3.missingMethods }

/-- The curated instance-property list for a hook name (empty when the hook
has no entry in `knownClassInfo` or the entry leaves the field unset). -/
def curatedProperties (hookName : String) : List String :=
  ((curatedInfo hookName).bind KnownClassInfo.properties).getD []

/-- The curated static-property list for a hook name. -/
def curatedStaticProperties (hookName : String) : List String :=
  ((curatedInfo hookName).bind KnownClassInfo.staticProperties).getD []

/-- The curated method list for a hook name. -/
def curatedMethods (hookName : String) : List String :=
  ((curatedInfo hookName).bind KnownClassInfo.methods).getD []

/-- The curated static-method list for a hook name. -/
def curatedStaticMethods (hookName : String) : List String :=
  ((curatedInfo hookName).bind KnownClassInfo.staticMethods).getD []

/-- A property counts as present when it is an instance or a static
property of the candidate (the test used at lines 783, 807). -/
def presProp (c : ClientClass) (p : String) : Bool :=
  c.properties.contains p || c.staticProperties.contains p

/-- A method counts as present when it is an instance or a static method of
the candidate (the test used at lines 793, 835). -/
def presMethod (c : ClientClass) (m : String) : Bool :=
  c.methods.contains m || c.staticMethods.contains m

/-- A score loop whose body adds `k` exactly when `pred` holds contributes
`k * countP pred` over the whole list. -/
theorem foldl_score_eq (f : ScoreState → String → ScoreState) (k : Nat) (pred : String → Bool)
    (hf : ∀ st x, (f st x).score = st.score + (if pred x then k else 0)) :
    ∀ (l : List String) (st : ScoreState),
      (l.foldl f st).score = st.score + k * l.countP pred := by
  intro l
  induction l with
  | nil => intro st; simp
  | cons x xs ih =>
    intro st
    rw [List.foldl_cons, List.countP_cons, ih, hf]
    rcases h : pred x with _ | _ <;> simp [h, Nat.mul_add]
    omega

theorem reqPropStep_score (c : ClientClass) :
    ∀ st prop, (reqPropStep c st prop).score = st.score + (if presProp c prop then 2 else 0) := by
  intro st prop
  unfold reqPropStep presProp
  split <;> simp_all

theorem reqMethodStep_score (c : ClientClass) :
    ∀ st m, (reqMethodStep c st m).score = st.score + (if presMethod c m then 1 else 0) := by
  intro st m
  unfold reqMethodStep presMethod
  split <;> simp_all

theorem knownPropStep_score (c : ClientClass) (req : List String) :
    ∀ st prop, (knownPropStep c req st prop).score =
      st.score + (if presProp c prop then 3 else 0) := by
  intro st prop
  unfold knownPropStep presProp
  split
  · simp_all
  · split <;> simp_all

theorem knownStaticPropStep_score (c : ClientClass) (req : List String) :
    ∀ st prop, (knownStaticPropStep c req st prop).score =
      st.score + (if c.staticProperties.contains prop then 3 else 0) := by
  intro st prop
  unfold knownStaticPropStep
  split
  · simp_all
  · split <;> simp_all

theorem knownMethodStep_score (c : ClientClass) (req : List String) :
    ∀ st m, (knownMethodStep c req st m).score =
      st.score + (if presMethod c m then 2 else 0) := by
  intro st m
  unfold knownMethodStep presMethod
  split
  · simp_all
  · split <;> simp_all

theorem knownStaticMethodStep_score (c : ClientClass) (req : List String) :
    ∀ st m, (knownStaticMethodStep c req st m).score =
      st.score + (if c.staticMethods.contains m then 2 else 0) := by
  intro st m
  unfold knownStaticMethodStep
  split
  · simp_all
  · split <;> simp_all

/-- Closed form of the match score: every weight is applied unconditionally
to every present item of its list; in particular the curated `+3` per
present curated property does not depend on whether the property was already
counted among the usage-derived required properties. -/
theorem matchScore_eq (u : HookUsageEntry) (c : ClientClass) (h : String) :
    (calculateMatchScore u c h).matchScore =
      2 * u.properties.countP (presProp c)
      + u.methods.countP (presMethod c)
      + 3 * (curatedProperties h).countP (presProp c)
      + 3 * (curatedStaticProperties h).countP (fun p => c.staticProperties.contains p)
      + 2 * (curatedMethods h).countP (presMethod c)
      + 2 * (curatedStaticMethods h).countP (fun m => c.staticMethods.contains m)
      + (if u.properties.contains "Instance" && c.hasInstance then 5 else 0)
      + (if u.properties.contains "Manager" && c.hasManager then 3 else 0) := by
  unfold calculateMatchScore curatedProperties curatedStaticProperties curatedMethods
    curatedStaticMethods
  have h1 := foldl_score_eq (reqPropStep c) 2 (presProp c) (reqPropStep_score c)
  have h2 := foldl_score_eq (reqMethodStep c) 1 (presMethod c) (reqMethodStep_score c)
  have h3 := foldl_score_eq (knownPropStep c u.properties) 3 (presProp c)
    (knownPropStep_score c u.properties)
  have h4 := foldl_score_eq (knownStaticPropStep c u.properties) 3
    (fun p => c.staticProperties.contains p) (knownStaticPropStep_score c u.properties)
  have h5 := foldl_score_eq (knownMethodStep c u.methods) 2 (presMethod c)
    (knownMethodStep_score c u.methods)
  have h6 := foldl_score_eq (knownStaticMethodStep c u.methods) 2
    (fun m => c.staticMethods.contains m) (knownStaticMethodStep_score c u.methods)
  have h0 : ({ matchedProperties := [], matchedMethods := []
               missingProperties := [], missingMethods := [], score := 0 } : ScoreState).score
      = 0 := rfl
  cases hci : curatedInfo h with
  | none =>
    simp only [hci, Option.none_bind, Option.getD_none, List.countP_nil]
    rw [h2, h1, h0]
    split <;> split <;> omega
  | some k =>
    simp only [hci, Option.some_bind]
    cases hp : k.properties <;> cases hsp : k.staticProperties <;>
      cases hm : k.methods <;> cases hsm : k.staticMethods <;>
      simp only [hp, hsp, hm, hsm, Option.getD_none, Option.getD_some, List.countP_nil] <;>
      (try rw [h6]) <;> (try rw [h5]) <;> (try rw [h4]) <;> (try rw [h3]) <;>
      rw [h2, h1, h0] <;>
      split <;> split <;> omega

/-- Stable insertion used to model `matches.sort((a, b) => b.matchScore -
a.matchScore)` (line 1108): a JS stable sort, descending by score. -/
def insertByScoreDesc (m : ClassMatch) : List ClassMatch → List ClassMatch
  | [] => [m]
  | x :: xs =>
    if x.matchScore ≤ m.matchScore then m :: x :: xs
    else x :: insertByScoreDesc m xs

/-- Stable descending-score sort (insertion sort). -/
def sortByScoreDesc (l : List ClassMatch) : List ClassMatch :=
  l.foldr insertByScoreDesc []

/-- The candidate loop of lines 1098-1108: score every recovered class,
keep positive scores, sort descending by score. -/
def rankMatches (hookUsage : HookUsageEntry) (hookName : String)
    (clientClasses : List ClientClass) : List ClassMatch :=
  sortByScoreDesc
    ((clientClasses.map (fun c => calculateMatchScore hookUsage c hookName)).filter
      (fun m => 0 < m.matchScore))

theorem mem_insertByScoreDesc {y m : ClassMatch} :
    ∀ {l : List ClassMatch}, y ∈ insertByScoreDesc m l ↔ y = m ∨ y ∈ l := by
  intro l
  induction l with
  | nil => simp [insertByScoreDesc]
  | cons x xs ih =>
    unfold insertByScoreDesc
    split
    · simp
    · simp only [List.mem_cons, ih]
      tauto

theorem pairwise_insertByScoreDesc (m : ClassMatch) :
    ∀ {l : List ClassMatch},
      l.Pairwise (fun a b => b.matchScore ≤ a.matchScore) →
      (insertByScoreDesc m l).Pairwise (fun a b => b.matchScore ≤ a.matchScore) := by
  intro l
  induction l with
  | nil => intro _; simp [insertByScoreDesc]
  | cons x xs ih =>
    intro hp
    rcases List.pairwise_cons.mp hp with ⟨hx, hxs⟩
    unfold insertByScoreDesc
    split
    · rename_i hle
      refine List.pairwise_cons.mpr ⟨?_, hp⟩
      intro b hb
      rcases List.mem_cons.mp hb with rfl | hbxs
      · exact hle
      · exact le_trans (hx b hbxs) hle
    · rename_i hgt
      refine List.pairwise_cons.mpr ⟨?_, ih hxs⟩
      intro b hb
      rcases mem_insertByScoreDesc.mp hb with rfl | hbxs
      · omega
      · exact hx b hbxs

/-- The ranked list is sorted in descending score order. -/
theorem sortByScoreDesc_pairwise (l : List ClassMatch) :
    (sortByScoreDesc l).Pairwise (fun a b => b.matchScore ≤ a.matchScore) := by
  unfold sortByScoreDesc
  induction l with
  | nil => simp
  | cons x xs ih => exact pairwise_insertByScoreDesc x ih

theorem rankMatches_pairwise (u : HookUsageEntry) (h : String) (cs : List ClientClass) :
    (rankMatches u h cs).Pairwise (fun a b => b.matchScore ≤ a.matchScore) :=
  sortByScoreDesc_pairwise _

/-- Everything placed before an element of a ranked list scores at least as
much as that element. -/
theorem rankMatches_pre_ge (u : HookUsageEntry) (h : String) (cs : List ClientClass)
    (pre post : List ClassMatch) (m : ClassMatch)
    (heq : rankMatches u h cs = pre ++ m :: post) :
    ∀ m' ∈ pre, m.matchScore ≤ m'.matchScore := by
  intro m' hm'
  have hp := rankMatches_pairwise u h cs
  rw [heq] at hp
  rcases List.pairwise_append.mp hp with ⟨-, -, hcross⟩
  exact hcross m' hm' m (List.mem_cons_self m post)

/-- `clientClass.properties.add(prop)` on the candidate: the set-add of one
instance property, everything else unchanged. -/
def addInstanceProp (c : ClientClass) (p : String) : ClientClass :=
  { c with properties := ssetAdd c.properties p }

theorem contains_ssetAdd_self (l : List String) (p : String) :
    (ssetAdd l p).contains p = true := by
  unfold ssetAdd
  split <;> simp_all [List.elem_eq_mem]

theorem contains_ssetAdd_ne (l : List String) (p q : String) (h : q ≠ p) :
    (ssetAdd l p).contains q = l.contains q := by
  unfold ssetAdd
  split
  · rfl
  · simp [List.elem_eq_mem, h]

/-- Flipping a predicate from false to true at exactly one element of a
duplicate-free list raises its count by one. -/
theorem countP_flip_one (p : String) (f g : String → Bool)
    (hagree : ∀ q, q ≠ p → f q = g q) (hfp : f p = false) (hgp : g p = true) :
    ∀ (l : List String), l.Nodup → p ∈ l → l.countP g = l.countP f + 1 := by
  intro l
  induction l with
  | nil => intro _ hmem; cases hmem
  | cons x xs ih =>
    intro hnd hmem
    rcases List.nodup_cons.mp hnd with ⟨hx, hxs⟩
    rw [List.countP_cons, List.countP_cons]
    by_cases hxp : x = p
    · subst hxp
      have hxs_eq : xs.countP g = xs.countP f := by
        refine List.countP_congr ?_
        intro a ha
        have hap : a ≠ x := by rintro rfl; exact hx ha
        rw [hagree a hap]
      rw [hxs_eq, hfp, hgp]
      simp
    · have hmemxs : p ∈ xs := by
        rcases List.mem_cons.mp hmem with heq | hmx
        · exact absurd heq.symm hxp
        · exact hmx
      rw [ih hxs hmemxs, hagree x hxp]
      omega

/-- The usage record of the C1 end-to-end scenario: hook `ChatManager`
requires property `Instance` and method `sendMessage`. -/
def usageChatManager : HookUsageEntry :=
  { properties := ["Instance"], methods := ["sendMessage"]
    fullExpressions := [], files := []
    fromDirectAccess := true, fromHookRegistration := false }

/-- The candidate class `CM` of the C1 scenario: static property `Instance`
(hence `hasInstance`), instance method `sendMessage`, nothing else. -/
def cmCandidate : ClientClass :=
  { name := "CM", properties := [], methods := ["sendMessage"]
    staticProperties := ["Instance"], staticMethods := []
    hasInstance := true, hasManager := false }

/-- Any candidate lacking `Instance` (not an instance property, not a static
property, `hasInstance = false`) scores strictly below 14 against the C1
usage record for hook `ChatManager`. -/
theorem chatManagerScoreBound (c : ClientClass)
    (h1 : c.properties.contains "Instance" = false)
    (h2 : c.staticProperties.contains "Instance" = false)
    (h3 : c.hasInstance = false) :
    (calculateMatchScore usageChatManager c "ChatManager").matchScore < 14 := by
  rw [matchScore_eq]
  have e1 : curatedProperties "ChatManager" = ["Instance", "_friends"] := rfl
  have e2 : curatedStaticProperties "ChatManager" = ["Instance"] := rfl
  have e3 : curatedMethods "ChatManager" = [] := rfl
  have e4 : curatedStaticMethods "ChatManager" = [] := rfl
  rw [e1, e2, e3, e4]
  simp only [usageChatManager, List.countP_cons, List.countP_nil, presProp, presMethod,
    h1, h2, h3, Bool.false_or, Bool.or_false, Bool.and_false, Bool.false_and]
  have hmv : (["Instance"] : List String).contains "Manager" = false := rfl
  simp only [hmv, Bool.false_and]
  split_ifs <;> simp_all

/-- A candidate that matches the required method but lacks `Instance`:
scores 1 against the C1 scenario. -/
def lackingCandidate : ClientClass :=
  { name := "ZZ", properties := [], methods := ["sendMessage"]
    staticProperties := [], staticMethods := []
    hasInstance := false, hasManager := false }

/-- C1: the claim predicts score 11 for the `ChatManager`/`CM` scenario; the
code returns 14, because the curated table lists `Instance` both under
`properties` and under `staticProperties` and each present occurrence adds 3
(2 usage + 1 method + 3 curated property + 3 curated static property +
5 Instance bonus). This counterexample refutes the claimed value 11. -/
theorem claim_C1_counterexample :
    (calculateMatchScore usageChatManager cmCandidate "ChatManager").matchScore ≠ 11 := by
  decide

/-- C1 (amended): in the `ChatManager`/`CM` scenario `calculateMatchScore`
returns 14, every candidate lacking `Instance` scores strictly below 14, and
in the ranked output the match of `CM` is never preceded by the match of a
candidate lacking `Instance`. -/
theorem claim_C1 :
    (calculateMatchScore usageChatManager cmCandidate "ChatManager").matchScore = 14 ∧
    (∀ c : ClientClass, c.properties.contains "Instance" = false →
      c.staticProperties.contains "Instance" = false → c.hasInstance = false →
      (calculateMatchScore usageChatManager c "ChatManager").matchScore < 14) ∧
    (∀ (cs : List ClientClass) (pre post : List ClassMatch),
      rankMatches usageChatManager "ChatManager" cs
        = pre ++ calculateMatchScore usageChatManager cmCandidate "ChatManager" :: post →
      ∀ c : ClientClass, c.properties.contains "Instance" = false →
        c.staticProperties.contains "Instance" = false → c.hasInstance = false →
        calculateMatchScore usageChatManager c "ChatManager" ∉ pre) := by
  refine ⟨by decide, chatManagerScoreBound, ?_⟩
  intro cs pre post heq c hc1 hc2 hc3 hmem
  have hge := rankMatches_pre_ge usageChatManager "ChatManager" cs pre post _ heq _ hmem
  have h14 : (calculateMatchScore usageChatManager cmCandidate "ChatManager").matchScore
      = 14 := by decide
  have hlt := chatManagerScoreBound c hc1 hc2 hc3
  rw [h14] at hge
  omega

/-- Witness for C1: the concrete lacking candidate scores below 14, and with
candidate list `[lackingCandidate, cmCandidate]` the ranked output places
`CM` first, so nothing lacking `Instance` precedes it. -/
theorem claim_C1_witness :
    (calculateMatchScore usageChatManager lackingCandidate "ChatManager").matchScore < 14 ∧
    calculateMatchScore usageChatManager lackingCandidate "ChatManager"
      ∉ ([] : List ClassMatch) :=
  ⟨claim_C1.2.1 lackingCandidate rfl rfl rfl,
   claim_C1.2.2 [lackingCandidate, cmCandidate] []
     [calculateMatchScore usageChatManager lackingCandidate "ChatManager"] (by decide)
     lackingCandidate rfl rfl rfl⟩

/-- Usage record requiring only the property `_friends`. -/
def usageFriends : HookUsageEntry :=
  { properties := ["_friends"], methods := []
    fullExpressions := [], files := []
    fromDirectAccess := true, fromHookRegistration := false }

/-- Candidate with `_friends` as its only member. -/
def friendsCandidate : ClientClass :=
  { name := "XX", properties := ["_friends"], methods := []
    staticProperties := [], staticMethods := []
    hasInstance := false, hasManager := false }

/-- C2: counterexample. `_friends` is a usage-derived required property that
is present (scored +2) and is also a curated property of `ChatManager`. The
claim says an already-counted curated property contributes no additional
points, predicting a total of 2; the code scores 5 (2 usage + 3 curated),
as the comparison with a hook name outside the curated table shows. -/
theorem claim_C2_counterexample :
    (calculateMatchScore usageFriends friendsCandidate "ChatManager").matchScore = 5 ∧
    (calculateMatchScore usageFriends friendsCandidate "NoSuchHook").matchScore = 2 := by
  constructor <;> decide

/-- C2 (amended): the full additive closed form of `calculateMatchScore`:
each curated property present on the candidate adds exactly +3 regardless of
whether it was already counted among the usage-derived required properties
(the already-counted guard only deduplicates the `matchedProperties` list);
usage-derived properties add 2, usage-derived methods 1, curated static
properties 3, curated methods and static methods 2, plus the Instance (+5)
and Manager (+3) bonuses. -/
theorem claim_C2 (u : HookUsageEntry) (c : ClientClass) (h : String) :
    (calculateMatchScore u c h).matchScore =
      2 * u.properties.countP (presProp c)
      + u.methods.countP (presMethod c)
      + 3 * (curatedProperties h).countP (presProp c)
      + 3 * (curatedStaticProperties h).countP (fun p => c.staticProperties.contains p)
      + 2 * (curatedMethods h).countP (presMethod c)
      + 2 * (curatedStaticMethods h).countP (fun m => c.staticMethods.contains m)
      + (if u.properties.contains "Instance" && c.hasInstance then 5 else 0)
      + (if u.properties.contains "Manager" && c.hasManager then 3 else 0) :=
  matchScore_eq u c h

/-- Candidate with no members at all, used for the C3 counterexample. -/
def emptyCandidate : ClientClass :=
  { name := "YY", properties := [], methods := []
    staticProperties := [], staticMethods := []
    hasInstance := false, hasManager := false }

/-- C3: counterexample. For hook `ChatManager` and required property
`_friends` (which the empty candidate is missing), adding `_friends` to the
candidate's property set raises the score from 0 to 5 (2 for the usage match
plus 3 for the curated match), not by exactly 2 as claimed. -/
theorem claim_C3_counterexample :
    (calculateMatchScore usageFriends (addInstanceProp emptyCandidate "_friends")
        "ChatManager").matchScore = 5 ∧
    (calculateMatchScore usageFriends emptyCandidate "ChatManager").matchScore = 0 ∧
    (calculateMatchScore usageFriends (addInstanceProp emptyCandidate "_friends")
        "ChatManager").matchScore ≠
      (calculateMatchScore usageFriends emptyCandidate "ChatManager").matchScore + 2 := by
  refine ⟨by decide, by decide, by decide⟩

/-- C3 (amended): adding a missing usage-derived required property `p` to
the candidate's property set raises the score by exactly 2, provided `p` is
not also listed among the curated properties for the hook name (when it is,
the increase is 2 + 3). -/
theorem claim_C3 (u : HookUsageEntry) (c : ClientClass) (h p : String)
    (hmem : p ∈ u.properties) (hnd : u.properties.Nodup)
    (hnp : c.properties.contains p = false)
    (hnsp : c.staticProperties.contains p = false)
    (hcur : p ∉ curatedProperties h) :
    (calculateMatchScore u (addInstanceProp c p) h).matchScore
      = (calculateMatchScore u c h).matchScore + 2 := by
  rw [matchScore_eq, matchScore_eq]
  have hcount : u.properties.countP (presProp (addInstanceProp c p))
      = u.properties.countP (presProp c) + 1 := by
    refine countP_flip_one p (presProp c) (presProp (addInstanceProp c p)) ?_ ?_ ?_
      u.properties hnd hmem
    · intro q hq
      unfold presProp addInstanceProp
      simp only
      rw [contains_ssetAdd_ne c.properties p q hq]
    · unfold presProp
      rw [hnp, hnsp]
      rfl
    · unfold presProp addInstanceProp
      simp only
      rw [contains_ssetAdd_self]
      rfl
  have hcur_count : (curatedProperties h).countP (presProp (addInstanceProp c p))
      = (curatedProperties h).countP (presProp c) := by
    refine List.countP_congr ?_
    intro q hq
    have hqp : q ≠ p := fun heq => hcur (heq ▸ hq)
    unfold presProp addInstanceProp
    simp only
    rw [contains_ssetAdd_ne c.properties p q hqp]
  have hpm2 : u.methods.countP (presMethod (addInstanceProp c p))
      = u.methods.countP (presMethod c) := rfl
  have hsp2 : (curatedStaticProperties h).countP
        (fun q => (addInstanceProp c p).staticProperties.contains q)
      = (curatedStaticProperties h).countP (fun q => c.staticProperties.contains q) := rfl
  have hcm2 : (curatedMethods h).countP (presMethod (addInstanceProp c p))
      = (curatedMethods h).countP (presMethod c) := rfl
  have hsm2 : (curatedStaticMethods h).countP
        (fun q => (addInstanceProp c p).staticMethods.contains q)
      = (curatedStaticMethods h).countP (fun q => c.staticMethods.contains q) := rfl
  have hif1 : (if u.properties.contains "Instance" && (addInstanceProp c p).hasInstance
        then 5 else 0)
      = (if u.properties.contains "Instance" && c.hasInstance then 5 else 0) := rfl
  have hif2 : (if u.properties.contains "Manager" && (addInstanceProp c p).hasManager
        then 3 else 0)
      = (if u.properties.contains "Manager" && c.hasManager then 3 else 0) := rfl
  rw [hcount, hcur_count, hpm2, hsp2, hcm2, hsm2, hif1, hif2]
  omega

/-- Witness for C3: the required property `"p"` added to an empty candidate
for a hook name with no curated entry raises the score by exactly 2. -/
theorem claim_C3_witness :
    (calculateMatchScore
        { properties := ["p"], methods := [], fullExpressions := [], files := []
          fromDirectAccess := true, fromHookRegistration := false }
        (addInstanceProp emptyCandidate "p") "NoSuchHook").matchScore
      = (calculateMatchScore
        { properties := ["p"], methods := [], fullExpressions := [], files := []
          fromDirectAccess := true, fromHookRegistration := false }
        emptyCandidate "NoSuchHook").matchScore + 2 :=
  claim_C3
    { properties := ["p"], methods := [], fullExpressions := [], files := []
      fromDirectAccess := true, fromHookRegistration := false }
    emptyCandidate "NoSuchHook" "p" (by decide) (by decide) rfl rfl (by decide)

/-! ### Hook usage extractor (`analyzeFileForGameHooks`, lines 350-548)

The TypeScript syntax tree is modelled by the node shapes the walker
distinguishes. `funcDecl` stands for the function-like nodes
(FunctionDeclaration/FunctionExpression/ArrowFunction), which all
enter/exit a scope identically (lines 386-389, 536-539); a function's body
appears as a `block` child, as in the real tree. Pure container statements
(VariableStatement, ExpressionStatement, ...) only recurse in the walker,
so statements appear directly in their parents' child lists. Name
identifiers of declarations are also visited by `forEachChild` but the
visitor ignores bare `Identifier` nodes, so they are not replicated. -/

inductive TsNode where
  | ident (text : String)
  | propAccess (expr : TsNode) (name : String)
  | callExpr (expr : TsNode)
  | varDecl (name : String) (initializer : TsNode)
  | funcDecl (children : List TsNode)
  | block (children : List TsNode)
  | sourceFile (children : List TsNode)
deriving Repr

/-- `chain[chain.length - 1] += '()'` (line 117); on an empty chain the JS
assignment writes index `-1`, leaving the array's elements unchanged. -/
def appendCallMarker : List String → List String
  | [] => []
  | [a] => [a ++ "()"]
  | a :: rest => a :: appendCallMarker rest

/-- `extractPropertyChain` (lines 106-123). A `this` keyword is not an
`Identifier` in the TypeScript tree, so it would contribute nothing; the
claims only exercise identifier-rooted chains. -/
def extractPropertyChain : TsNode → List String
  | .propAccess e name => extractPropertyChain e ++ [name]
  | .ident t => [t]
  | .callExpr e => appendCallMarker (extractPropertyChain e)
  | _ => []

/-- `isGameHooksAccess` (lines 125-130). -/
def isGameHooksAccess (chain : List String) : Bool :=
  (decide (chain.length ≥ 4) && chain.getD 0 "" == "document"
    && chain.getD 1 "" == "highlite" && chain.getD 2 "" == "gameHooks")
  || (decide (chain.length ≥ 3) && chain.getD 0 "" == "highlite"
    && chain.getD 1 "" == "gameHooks")
  || (decide (chain.length ≥ 3) && chain.getD 0 "" == "this"
    && chain.getD 1 "" == "gameHooks")
  || (decide (chain.length ≥ 2) && chain.getD 0 "" == "gameHooks")

/-- The `startIndex` computation of `getHookNameAndProperties`
(lines 133-143); `none` models `-1`. -/
def gameHooksStartIndex (chain : List String) : Option Nat :=
  if decide (chain.length ≥ 4) && chain.getD 0 "" == "document"
      && chain.getD 1 "" == "highlite" && chain.getD 2 "" == "gameHooks" then some 3
  else if decide (chain.length ≥ 3) && chain.getD 0 "" == "highlite"
      && chain.getD 1 "" == "gameHooks" then some 2
  else if decide (chain.length ≥ 3) && chain.getD 0 "" == "this"
      && chain.getD 1 "" == "gameHooks" then some 2
  else if decide (chain.length ≥ 2) && chain.getD 0 "" == "gameHooks" then some 1
  else none

/-- Result type of `getHookNameAndProperties`. -/
structure HookNameProps where
  hookName : String
  properties : List String
deriving DecidableEq, Repr

/-- `getHookNameAndProperties` (lines 132-153). -/
def getHookNameAndProperties (chain : List String) : HookNameProps :=
  match gameHooksStartIndex chain with
  | none => { hookName := "", properties := [] }
  | some i =>
    if chain.length ≤ i then { hookName := "", properties := [] }
    else { hookName := chain.getD i "", properties := chain.drop (i + 1) }

/-- `nodeToString` (lines 155-166). -/
def nodeToString : TsNode → String
  | .propAccess e name => nodeToString e ++ "." ++ name
  | .ident t => t
  | .callExpr e => nodeToString e ++ "()"
  | _ => "[unknown]"

/-- `GameHookDependency` (lines 8-16); the 1-based line number is pure
report bookkeeping and is omitted. -/
structure GameHookDependency where
  hookName : String
  propertyChain : List String
  fullExpression : String
  file : String
  isDirect : Bool
  sourceVariable : Option String := none
deriving DecidableEq, Repr

/-- `VariableGameHookReference` (lines 58-65); the declaration line is
omitted (bookkeeping only). -/
structure VariableGameHookReference where
  variableName : String
  hookName : String
  propertyChain : List String
  fullGameHookExpression : String
  scope : String
deriving DecidableEq, Repr

/-- `ScopeTracker` (lines 67-71); the JS `Map` is an insertion-ordered
association list whose `set` overwrites in place. -/
structure ScopeTracker where
  currentScope : String
  scopeCounter : Nat
  variableReferences : List (String × VariableGameHookReference)
deriving DecidableEq, Repr

/-- JS `Map.set`: overwrite in place when present, else append. -/
def mapSet (m : List (String × VariableGameHookReference)) (k : String)
    (v : VariableGameHookReference) : List (String × VariableGameHookReference) :=
  if m.any (fun kv => kv.1 == k) then
    m.map (fun kv => if kv.1 == k then (k, v) else kv)
  else m ++ [(k, v)]

/-- JS `Map.get`. -/
def mapGet (m : List (String × VariableGameHookReference)) (k : String) :
    Option VariableGameHookReference :=
  (m.find? (fun kv => kv.1 == k)).map (fun kv => kv.2)

/-- `enterScope` (lines 368-371). -/
def enterScope (st : ScopeTracker) : ScopeTracker :=
  { st with
    scopeCounter := st.scopeCounter + 1
    currentScope := "scope_" ++ toString (st.scopeCounter + 1) }

/-- `exitScope` (lines 373-383): delete every alias whose recorded scope is
the *current* scope identifier, then reset the current scope to `global`
(not to the enclosing scope). -/
def exitScope (st : ScopeTracker) : ScopeTracker :=
  { st with
    variableReferences :=
      st.variableReferences.filter (fun kv => !(kv.2.scope == st.currentScope))
    currentScope := "global" }

/-- Whether the visitor enters/exits a scope at this node (lines 386-389). -/
def isScopeNode : TsNode → Bool
  | .funcDecl _ | .block _ => true
  | _ => false

/-- The `forEachChild` recursion targets, each tagged with whether the child
is the initializer of a VariableDeclaration (for the
`isPartOfVariableDeclaration` test of line 443). -/
def tsChildren : TsNode → List (Bool × TsNode)
  | .ident _ => []
  | .propAccess e _ => [(false, e)]
  | .callExpr e => [(false, e)]
  | .varDecl _ init => [(true, init)]
  | .funcDecl cs => cs.map (fun c => (false, c))
  | .block cs => cs.map (fun c => (false, c))
  | .sourceFile cs => cs.map (fun c => (false, c))

/-- The recursive `visit` of `analyzeFileForGameHooks` (lines 385-540).
The `fuel` argument only bounds the recursion depth; the entry point
supplies `sizeOf root`, which exceeds the tree depth, so the zero case is
never reached. -/
def visitNode (filePath : String) :
    Nat → Bool → TsNode → ScopeTracker × List GameHookDependency →
    ScopeTracker × List GameHookDependency
  | 0, _, _, acc => acc
  | Nat.succ fuel, isVarDeclInit, node, acc =>
    let st := acc.1
    let deps := acc.2
    let st := if isScopeNode node then enterScope st else st
    let stDeps :=
      match node with
      | .varDecl variableName initializer =>
        let chain := extractPropertyChain initializer
        if isGameHooksAccess chain then
          let hp := getHookNameAndProperties chain
          if hp.hookName == "" then (st, deps)
          else
            let fullExpression := nodeToString initializer
            let newRef : VariableGameHookReference :=
              { variableName := variableName
                hookName := hp.hookName
                propertyChain := hp.properties
                fullGameHookExpression := fullExpression
                scope := st.currentScope }
            let newDep : GameHookDependency :=
              { hookName := hp.hookName, propertyChain := hp.properties
                fullExpression := fullExpression, file := filePath, isDirect := true }
            let st :=
              { st with variableReferences :=
                  mapSet st.variableReferences variableName newRef }
            (st, deps ++ [newDep])
        else (st, deps)
      | _ => (st, deps)
    let st := stDeps.1
    let deps := stDeps.2
    let deps :=
      match node with
      | .propAccess _ _ | .callExpr _ =>
        let chain := extractPropertyChain node
        if isGameHooksAccess chain then
          let hp := getHookNameAndProperties chain
          if hp.hookName == "" then deps
          else if isVarDeclInit then deps
          else
            let newDep : GameHookDependency :=
              { hookName := hp.hookName, propertyChain := hp.properties
                fullExpression := nodeToString node, file := filePath, isDirect := true }
            deps ++ [newDep]
        else
          match node with
          | .propAccess (.ident variableName) propertyName =>
            match mapGet st.variableReferences variableName with
            | some variableRef =>
              let newDep : GameHookDependency :=
                { hookName := variableRef.hookName
                  propertyChain := variableRef.propertyChain ++ [propertyName]
                  fullExpression := nodeToString node, file := filePath
                  isDirect := false, sourceVariable := some variableName }
              deps ++ [newDep]
            | none => deps
          | .callExpr (.propAccess (.ident variableName) methodName) =>
            match mapGet st.variableReferences variableName with
            | some variableRef =>
              let newDep : GameHookDependency :=
                { hookName := variableRef.hookName
                  propertyChain := variableRef.propertyChain ++ [methodName ++ "()"]
                  fullExpression := nodeToString node, file := filePath
                  isDirect := false, sourceVariable := some variableName }
              deps ++ [newDep]
            | none => deps
          | .callExpr (.ident variableName) =>
            match mapGet st.variableReferences variableName with
            | some variableRef =>
              let newDep : GameHookDependency :=
                { hookName := variableRef.hookName
                  propertyChain := variableRef.propertyChain ++ ["()"]
                  fullExpression := nodeToString node, file := filePath
                  isDirect := false, sourceVariable := some variableName }
              deps ++ [newDep]
            | none => deps
          | _ => deps
      | _ => deps
    let res := (tsChildren node).foldl
      (fun a child => visitNode filePath fuel child.1 child.2 a) (st, deps)
    if isScopeNode node then (exitScope res.1, res.2) else res

/-- `analyzeFileForGameHooks` (lines 350-548) for one parsed file. The
recursion-depth budget 1000 exceeds the depth of every tree considered
here, so the fuel never runs out on the inputs of the claims. -/
def analyzeFileForGameHooks (filePath : String) (root : TsNode) :
    List GameHookDependency :=
  (visitNode filePath 1000 false root
    ({ currentScope := "global", scopeCounter := 0, variableReferences := [] }, [])).2

/-- The initializer expression `gameHooks.Foo.bar`. -/
def ghFooBar : TsNode :=
  .propAccess (.propAccess (.ident "gameHooks") "Foo") "bar"

/-- The file `const x = gameHooks.Foo.bar; x.baz;`. -/
def aliasThenAccessFile : TsNode :=
  .sourceFile [.varDecl "x" ghFooBar, .propAccess (.ident "x") "baz"]

/-- The file `function f(){ const x = gameHooks.Foo.bar; } x.baz;`
(the function body is a block, as in the real syntax tree). -/
def aliasInFunctionFile : TsNode :=
  .sourceFile [.funcDecl [.block [.varDecl "x" ghFooBar]], .propAccess (.ident "x") "baz"]

/-- The file `const x = gameHooks.Foo.bar; function f(){} x.baz;`. -/
def topAliasThenFunctionFile : TsNode :=
  .sourceFile [.varDecl "x" ghFooBar, .funcDecl [.block []], .propAccess (.ident "x") "baz"]

/-- The file `const x = gameHooks.Foo.bar; { } x.baz;`. -/
def topAliasThenBlockFile : TsNode :=
  .sourceFile [.varDecl "x" ghFooBar, .block [], .propAccess (.ident "x") "baz"]

/-- The file `{ const x = gameHooks.Foo.bar; { } } x.baz;`. -/
def aliasInNestedBlockFile : TsNode :=
  .sourceFile [.block [.varDecl "x" ghFooBar, .block []], .propAccess (.ident "x") "baz"]

/-- C4: for `const x = gameHooks.Foo.bar; x.baz;` the extractor reports
exactly one direct reference with hook name `Foo` and property chain
`[bar]`, and exactly one indirect reference with hook name `Foo`, property
chain `[bar, baz]` and source variable `x`. (The walker additionally
reports a chain-less direct reference for the inner `gameHooks.Foo`
subexpression, which the claim does not exclude.) -/
theorem claim_C4 :
    ((analyzeFileForGameHooks "file.ts" aliasThenAccessFile).filter
      (fun d => d.isDirect && d.hookName == "Foo" && d.propertyChain == ["bar"])).length
      = 1 ∧
    ((analyzeFileForGameHooks "file.ts" aliasThenAccessFile).filter
      (fun d => !d.isDirect && d.hookName == "Foo" && d.propertyChain == ["bar", "baz"]
        && d.sourceVariable == some "x")).length = 1 := by
  constructor <;> decide

/-- C5: counterexample to the general invariant. In
`{ const x = gameHooks.Foo.bar; { } } x.baz;` the alias `x` is declared
inside the outer block (scope_1), but the inner block's exit resets the
current scope to `global`, so the outer block's exit deletes only
`global`-tagged aliases and `x` survives: the top-level `x.baz`, reached
after the walk has exited the alias's scope, still produces an indirect
reference. -/
theorem claim_C5_counterexample :
    ((analyzeFileForGameHooks "file.ts" aliasInNestedBlockFile).filter
      (fun d => !d.isDirect)).length = 1 ∧
    ((analyzeFileForGameHooks "file.ts" aliasInNestedBlockFile).filter
      (fun d => !d.isDirect && d.hookName == "Foo" && d.propertyChain == ["bar", "baz"]
        && d.sourceVariable == some "x")).length = 1 := by
  constructor <;> decide

/-- C5 (amended): scope exit deletes exactly the aliases tagged with the
scope identifier that is current at exit time, so an alias declared inside
a function or block whose scope is still current when it closes stops
resolving; in particular `function f(){ const x = gameHooks.Foo.bar; }
x.baz;` produces no indirect reference for the top-level `x.baz`. (When a
nested scope exits first, the current scope has already been reset to
`global` and the alias can survive its block, as the counterexample
shows.) -/
theorem claim_C5 :
    ((analyzeFileForGameHooks "file.ts" aliasInFunctionFile).filter
      (fun d => !d.isDirect)).length = 0 ∧
    (∀ st : ScopeTracker, ∀ kv ∈ (exitScope st).variableReferences,
      kv.2.scope ≠ st.currentScope) ∧
    (∀ st : ScopeTracker, ∀ kv ∈ st.variableReferences,
      kv.2.scope ≠ st.currentScope → kv ∈ (exitScope st).variableReferences) := by
  refine ⟨by decide, ?_, ?_⟩
  · intro st kv hkv
    have hmem := List.mem_filter.mp hkv
    intro heq
    rw [heq] at hmem
    simp at hmem
  · intro st kv hkv hne
    refine List.mem_filter.mpr ⟨hkv, ?_⟩
    simp [hne]

/-- A sample alias reference recorded in the global scope. -/
def refGlobalX : VariableGameHookReference :=
  { variableName := "x", hookName := "Foo", propertyChain := ["bar"]
    fullGameHookExpression := "gameHooks.Foo.bar", scope := "global" }

/-- A sample alias reference recorded in `scope_1`. -/
def refScopeOneY : VariableGameHookReference :=
  { variableName := "y", hookName := "Foo", propertyChain := []
    fullGameHookExpression := "gameHooks.Foo", scope := "scope_1" }

/-- A sample tracker inside `scope_1` holding both aliases. -/
def sampleTracker : ScopeTracker :=
  { currentScope := "scope_1", scopeCounter := 1
    variableReferences := [("x", refGlobalX), ("y", refScopeOneY)] }

/-- Witness for C5: after exiting `scope_1`, the surviving alias `x` is not
tagged with the closed scope, and the differently-tagged alias is kept. -/
theorem claim_C5_witness :
    refGlobalX.scope ≠ sampleTracker.currentScope ∧
    ("x", refGlobalX) ∈ (exitScope sampleTracker).variableReferences :=
  ⟨claim_C5.2.1 sampleTracker ("x", refGlobalX) (by decide),
   claim_C5.2.2 sampleTracker ("x", refGlobalX) (by decide) (by decide)⟩

/-- C9: counterexample to "exiting any later function or block node deletes
every alias recorded with scope `global`". In
`const x = gameHooks.Foo.bar; { } x.baz;` the bare block is a later block
node, but at its exit the current scope is the block's own `scope_1`, so
the `global`-tagged alias `x` survives and the final `x.baz` still produces
an indirect reference (the claim predicts none). -/
theorem claim_C9_counterexample :
    ((analyzeFileForGameHooks "file.ts" topAliasThenBlockFile).filter
      (fun d => !d.isDirect)).length = 1 ∧
    ((analyzeFileForGameHooks "file.ts" topAliasThenBlockFile).filter
      (fun d => !d.isDirect && d.hookName == "Foo" && d.propertyChain == ["bar", "baz"]
        && d.sourceVariable == some "x")).length = 1 := by
  constructor <;> decide

/-- C9 (amended): `exitScope` always resets the current scope to `global`
rather than to the enclosing scope; consequently a node whose subtree
already exited a nested scope (such as a function declaration, whose block
body exits first) performs its own exit with current scope `global` and
deletes every `global`-tagged alias. A top-level alias declared before a
function declaration therefore stops resolving after the walk leaves that
function: `const x = gameHooks.Foo.bar; function f(){} x.baz;` produces no
indirect reference. (A bare later block does not delete `global` aliases,
as the counterexample shows.) -/
theorem claim_C9 :
    (∀ st : ScopeTracker, (exitScope st).currentScope = "global") ∧
    ((analyzeFileForGameHooks "file.ts" topAliasThenFunctionFile).filter
      (fun d => !d.isDirect)).length = 0 := by
  exact ⟨fun st => rfl, by decide⟩

/-! ### Client class recoverer (`parseClientForClasses`, lines 550-768)

The acorn/estree tree is modelled by the node shapes the enter/leave
handlers distinguish. Each constructor carries the children the generic
`estree-walker` traversal would descend into. `varFuncDeclarator` is a
`VariableDeclarator` whose id is an `Identifier` and whose init is a
`FunctionExpression` (both the enter rule at line 591 and the leave rule at
line 749 test that shape); `protoMethodAssign` is
`C.prototype.m = ...` (line 671), `staticPropAssign` is `C.p = ...`
(line 698) and `thisPropAssign` is `this.p = ...` (line 730); their
children model the traversal into the right-hand side. Every other node
kind is `otherNode`. -/

/-- `MethodDefinition.kind`. -/
inductive MethodKind where
  | normal
  | getter
  | setter
  | ctor
deriving DecidableEq, Repr

/-- The estree node shapes distinguished by `parseClientForClasses`. -/
inductive EsNode where
  | classDecl (idName : String) (children : List EsNode)
  | funcDecl (idName : String) (children : List EsNode)
  | varFuncDeclarator (idName : String) (children : List EsNode)
  | methodDef (keyName : String) (kind : MethodKind) (isStatic : Bool) (children : List EsNode)
  | protoMethodAssign (className : String) (methodName : String) (children : List EsNode)
  | staticPropAssign (className : String) (propName : String) (children : List EsNode)
  | thisPropAssign (propName : String) (children : List EsNode)
  | otherNode (children : List EsNode)
deriving Repr

/-- `className.length <= 3 && /^[A-Za-z]{1,3}$/.test(className)`
(line 575 and the analogous tests). -/
def isShortClassName (s : String) : Bool :=
  decide (s.length ≤ 3) && decide (1 ≤ s.length) && s.toList.all (fun c => c.isAlpha)

/-- Walker state: the insertion-ordered `classMap` and the `currentClass`
cursor (lines 553-554). -/
structure RecovererState where
  classMap : List (String × ClientClass)
  currentClass : Option String
deriving DecidableEq, Repr

/-- A fresh, empty candidate record (as created at lines 578-586). -/
def emptyClientClass (name : String) : ClientClass :=
  { name := name, properties := [], methods := []
    staticProperties := [], staticMethods := []
    hasInstance := false, hasManager := false }

/-- `classMap.get`. -/
def cmapGet (m : List (String × ClientClass)) (k : String) : Option ClientClass :=
  (m.find? (fun kv => kv.1 == k)).map (fun kv => kv.2)

/-- `if (!classMap.has(name)) classMap.set(name, empty)`. -/
def ensureClass (m : List (String × ClientClass)) (name : String) :
    List (String × ClientClass) :=
  if m.any (fun kv => kv.1 == name) then m else m ++ [(name, emptyClientClass name)]

/-- Update the record stored under a key, in place. -/
def cmapUpdate (m : List (String × ClientClass)) (k : String)
    (f : ClientClass → ClientClass) : List (String × ClientClass) :=
  m.map (fun kv => if kv.1 == k then (kv.1, f kv.2) else kv)

/-- The general MethodDefinition rule (lines 632-648): any method definition
with an identifier key, inside an open candidate, joins the (static) method
set; a static one named `Instance` additionally sets `hasInstance` and adds
the static property `Instance`. -/
def applyMethodDefRule (c : ClientClass) (keyName : String) (isStatic : Bool) : ClientClass :=
  if isStatic then
    let c := { c with staticMethods := ssetAdd c.staticMethods keyName }
    if keyName == "Instance" then
      { c with hasInstance := true
               staticProperties := ssetAdd c.staticProperties "Instance" }
    else c
  else
    { c with methods := ssetAdd c.methods keyName }

/-- The accessor rule (lines 650-669): a getter/setter with an identifier
key, inside an open candidate, joins the (static) property set, with the
`Instance`/`Manager` flags for static accessors. -/
def applyAccessorRule (c : ClientClass) (keyName : String) (isStatic : Bool) : ClientClass :=
  if isStatic then
    let c := { c with staticProperties := ssetAdd c.staticProperties keyName }
    let c := if keyName == "Instance" then { c with hasInstance := true } else c
    if keyName == "Manager" then { c with hasManager := true } else c
  else
    { c with properties := ssetAdd c.properties keyName }

/-- The static-property-assignment update (lines 718-726). -/
def applyStaticPropRule (c : ClientClass) (propName : String) : ClientClass :=
  let c := { c with staticProperties := ssetAdd c.staticProperties propName }
  let c := if propName == "Instance" then { c with hasInstance := true } else c
  if propName == "Manager" then { c with hasManager := true } else c

/-- The `enter` handler (lines 570-745), rule by rule in source order. -/
def enterEs (st : RecovererState) (n : EsNode) : RecovererState :=
  let st :=
    match n with
    | .classDecl name _ =>
      if isShortClassName name then
        { classMap := ensureClass st.classMap name, currentClass := some name }
      else st
    | _ => st
  let st :=
    match n with
    | .varFuncDeclarator name _ =>
      if isShortClassName name then
        { classMap := ensureClass st.classMap name, currentClass := some name }
      else st
    | _ => st
  let st :=
    match n with
    | .funcDecl name _ =>
      if isShortClassName name then
        { classMap := ensureClass st.classMap name, currentClass := some name }
      else st
    | _ => st
  let st :=
    match n with
    | .methodDef keyName _ isStatic _ =>
      match st.currentClass with
      | some cur =>
        if (cmapGet st.classMap cur).isSome then
          let m := cmapUpdate st.classMap cur (fun c => applyMethodDefRule c keyName isStatic)
          { st with classMap := m }
        else st
      | none => st
    | _ => st
  let st :=
    match n with
    | .methodDef keyName kind isStatic _ =>
      if kind == MethodKind.getter || kind == MethodKind.setter then
        match st.currentClass with
        | some cur =>
          if (cmapGet st.classMap cur).isSome then
            let m := cmapUpdate st.classMap cur (fun c => applyAccessorRule c keyName isStatic)
            { st with classMap := m }
          else st
        | none => st
      else st
    | _ => st
  let st :=
    match n with
    | .protoMethodAssign className methodName _ =>
      if isShortClassName className then
        let m := cmapUpdate (ensureClass st.classMap className) className
          (fun c => { c with methods := ssetAdd c.methods methodName })
        { st with classMap := m }
      else st
    | _ => st
  let st :=
    match n with
    | .staticPropAssign className propName _ =>
      if isShortClassName className then
        let m := cmapUpdate (ensureClass st.classMap className) className
          (fun c => applyStaticPropRule c propName)
        { st with classMap := m }
      else st
    | _ => st
  match n with
  | .thisPropAssign propName _ =>
    match st.currentClass with
    | some cur =>
      if (cmapGet st.classMap cur).isSome then
        let m := cmapUpdate st.classMap cur
          (fun c => { c with properties := ssetAdd c.properties propName })
        { st with classMap := m }
      else
        let m := st.classMap.map (fun kv =>
          (kv.1, { kv.2 with properties := ssetAdd kv.2.properties propName }))
        { st with classMap := m }
    | none =>
      let m := st.classMap.map (fun kv =>
        (kv.1, { kv.2 with properties := ssetAdd kv.2.properties propName }))
      { st with classMap := m }
  | _ => st

/-- The `leave` handler (lines 746-752): the cursor is cleared on leaving a
ClassDeclaration, FunctionDeclaration, or VariableDeclarator whose init is
a FunctionExpression, whatever their names. -/
def leaveEs (st : RecovererState) (n : EsNode) : RecovererState :=
  match n with
  | .classDecl _ _ | .funcDecl _ _ | .varFuncDeclarator _ _ =>
    { st with currentClass := none }
  | _ => st

/-- Children for the generic traversal. -/
def esChildren : EsNode → List EsNode
  | .classDecl _ cs | .funcDecl _ cs | .varFuncDeclarator _ cs
  | .methodDef _ _ _ cs | .protoMethodAssign _ _ cs
  | .staticPropAssign _ _ cs | .thisPropAssign _ cs | .otherNode cs => cs

/-- The depth-first `walk(ast, { enter, leave })` of `estree-walker`. The
`fuel` argument only bounds the recursion depth; the entry point supplies a
budget exceeding the depth of every tree considered here. -/
def walkEs : Nat → EsNode → RecovererState → RecovererState
  | 0, _, st => st
  | Nat.succ fuel, n, st =>
    let st := enterEs st n
    let st := (esChildren n).foldl (fun s c => walkEs fuel c s) st
    leaveEs st n

/-- Does the candidate keep any recorded member (the filter of
lines 755-760)? -/
def keepsCandidate (c : ClientClass) : Bool :=
  decide (0 < c.properties.length) || decide (0 < c.methods.length)
    || decide (0 < c.staticProperties.length) || decide (0 < c.staticMethods.length)

/-- `parseClientForClasses` (lines 550-768): walk the client tree, then keep
only candidates with at least one recorded member, in insertion order. -/
def parseClientForClasses (root : EsNode) : List ClientClass :=
  let st := walkEs 1000 root { classMap := [], currentClass := none }
  (st.classMap.map (fun kv => kv.2)).filter keepsCandidate

theorem mem_ssetAdd_self (l : List String) (x : String) : x ∈ ssetAdd l x := by
  unfold ssetAdd
  split
  · assumption
  · simp

theorem mem_ssetAdd_of_mem (l : List String) (x y : String) (h : x ∈ l) : x ∈ ssetAdd l y := by
  unfold ssetAdd
  split
  · exact h
  · exact List.mem_append_left _ h

theorem cmapGet_cmapUpdate (m : List (String × ClientClass)) (k : String)
    (f : ClientClass → ClientClass) :
    cmapGet (cmapUpdate m k f) k = (cmapGet m k).map f := by
  induction m with
  | nil => rfl
  | cons kv m ih =>
    unfold cmapUpdate cmapGet
    by_cases h : kv.1 == k
    · simp only [h, if_pos, List.map_cons]
      rw [List.find?_cons_of_pos, List.find?_cons_of_pos]
      · simp
      · exact h
      · exact h
    · simp only [h, if_neg, List.map_cons]
      rw [List.find?_cons_of_neg, List.find?_cons_of_neg]
      · exact ih
      · simpa using h
      · simpa using h

/-- Inside an open candidate, an accessor definition with an identifier key
is added by the general MethodDefinition rule to the (static) method set
and by the accessor rule to the (static) property set. -/
theorem accessor_joins_both (st : RecovererState) (cur : String) (cls : ClientClass)
    (k : String) (kind : MethodKind) (stc : Bool) (ch : List EsNode)
    (hkind : kind = MethodKind.getter ∨ kind = MethodKind.setter)
    (hcur : st.currentClass = some cur)
    (hcls : cmapGet st.classMap cur = some cls) :
    ∃ cls', cmapGet (enterEs st (.methodDef k kind stc ch)).classMap cur = some cls' ∧
      (stc = true → k ∈ cls'.staticMethods ∧ k ∈ cls'.staticProperties) ∧
      (stc = false → k ∈ cls'.methods ∧ k ∈ cls'.properties) := by
  rcases hkind with rfl | rfl <;>
    unfold enterEs <;>
    simp only [hcur, hcls, cmapGet_cmapUpdate, Option.isSome_some, Option.map_some,
      Option.map_some', beq_self_eq_true, Bool.true_or, Bool.or_true, ite_true] <;>
    refine ⟨applyAccessorRule (applyMethodDefRule cls k stc) k stc, rfl, ?_, ?_⟩ <;>
      intro hstc <;> subst hstc <;>
      unfold applyAccessorRule applyMethodDefRule <;>
      first
        | exact ⟨mem_ssetAdd_self _ _, mem_ssetAdd_self _ _⟩
        | (by_cases hI : k == "Instance" <;> by_cases hM : k == "Manager" <;>
            simp [hI, hM] <;>
            exact ⟨mem_ssetAdd_self _ _, mem_ssetAdd_self _ _⟩)

/-- C7: every class in the recoverer's final list has at least one recorded
member: a candidate whose four member sets are all empty is filtered out at
lines 755-760. -/
theorem claim_C7 (root : EsNode) (c : ClientClass)
    (hc : c ∈ parseClientForClasses root) :
    c.properties ≠ [] ∨ c.methods ≠ [] ∨ c.staticProperties ≠ [] ∨ c.staticMethods ≠ [] := by
  unfold parseClientForClasses at hc
  have hk := (List.mem_filter.mp hc).2
  unfold keepsCandidate at hk
  simp only [Bool.or_eq_true, decide_eq_true_eq] at hk
  rcases hk with ((h | h) | h) | h
  · exact Or.inl (List.ne_nil_of_length_pos h)
  · exact Or.inr (Or.inl (List.ne_nil_of_length_pos h))
  · exact Or.inr (Or.inr (Or.inl (List.ne_nil_of_length_pos h)))
  · exact Or.inr (Or.inr (Or.inr (List.ne_nil_of_length_pos h)))

/-- A client tree declaring an empty short class `AB` and a short class `CD`
with one method. -/
def sampleClientTree : EsNode :=
  .otherNode [.classDecl "AB" [],
    .classDecl "CD" [.otherNode [.methodDef "m" MethodKind.normal false []]]]

/-- The one candidate recovered from `sampleClientTree` (`AB` is dropped). -/
def sampleRecovered : ClientClass :=
  { name := "CD", properties := [], methods := ["m"]
    staticProperties := [], staticMethods := []
    hasInstance := false, hasManager := false }

/-- Witness for C7: the surviving candidate of the sample tree has a
recorded member. -/
theorem claim_C7_witness :
    sampleRecovered ∈ parseClientForClasses sampleClientTree ∧
    (sampleRecovered.properties ≠ [] ∨ sampleRecovered.methods ≠ []
      ∨ sampleRecovered.staticProperties ≠ [] ∨ sampleRecovered.staticMethods ≠ []) :=
  ⟨by decide, claim_C7 sampleClientTree sampleRecovered (by decide)⟩

/-- C10: inside an open candidate, an accessor definition (getter or
setter) with an identifier key is added both to the candidate's (static)
method set — the general MethodDefinition rule does not exclude accessors —
and to its (static) property set via the accessor rule; consequently a
single getter `foo` recovered from `class AB { get foo(){} }` satisfies
both a required property `foo` (+2) and a required method `foo` (+1) in
scoring, for a total of 3. -/
theorem claim_C10 :
    (∀ (st : RecovererState) (cur : String) (cls : ClientClass) (k : String)
        (kind : MethodKind) (stc : Bool) (ch : List EsNode),
      (kind = MethodKind.getter ∨ kind = MethodKind.setter) →
      st.currentClass = some cur →
      cmapGet st.classMap cur = some cls →
      ∃ cls', cmapGet (enterEs st (.methodDef k kind stc ch)).classMap cur = some cls' ∧
        (stc = true → k ∈ cls'.staticMethods ∧ k ∈ cls'.staticProperties) ∧
        (stc = false → k ∈ cls'.methods ∧ k ∈ cls'.properties)) ∧
    parseClientForClasses
        (.otherNode [.classDecl "AB"
          [.otherNode [.methodDef "foo" MethodKind.getter false []]]])
      = [{ name := "AB", properties := ["foo"], methods := ["foo"]
           staticProperties := [], staticMethods := []
           hasInstance := false, hasManager := false }] ∧
    (calculateMatchScore
      { properties := ["foo"], methods := ["foo"], fullExpressions := [], files := []
        fromDirectAccess := true, fromHookRegistration := false }
      { name := "AB", properties := ["foo"], methods := ["foo"]
        staticProperties := [], staticMethods := []
        hasInstance := false, hasManager := false } "X").matchScore = 3 :=
  ⟨accessor_joins_both, by decide, by decide⟩

/-- Witness for C10: a getter `g` entering an open empty candidate `AB`
lands in both the method set and the property set. -/
theorem claim_C10_witness :
    ∃ cls', cmapGet (enterEs
        { classMap := [("AB", emptyClientClass "AB")], currentClass := some "AB" }
        (.methodDef "g" MethodKind.getter false [])).classMap "AB" = some cls' ∧
      (false = true → "g" ∈ cls'.staticMethods ∧ "g" ∈ cls'.staticProperties) ∧
      (false = false → "g" ∈ cls'.methods ∧ "g" ∈ cls'.properties) :=
  claim_C10.1 { classMap := [("AB", emptyClientClass "AB")], currentClass := some "AB" }
    "AB" (emptyClientClass "AB") "g" MethodKind.getter false [] (Or.inl rfl) rfl rfl

/-! ### Aggregation into per-hook usage records
(`analyzeGameHookDependencies`, lines 898-991)

The per-hook usage object is read only through per-key lookup, so it is
modelled as `String → Option HookUsageEntry`. Registration call-sites are
the string-literal `(hookName, methodName)` pairs that
`analyzeFileForHookRegistrations` (lines 272-348) extracts; the per-file
maps and the cross-file merge of lines 906-924 compose to one fold over
all call-sites. `rel` abstracts `path.relative(projectRoot, ·)`. -/

/-- `prop.includes('()')` (lines 954, 961, 970). -/
def segIsMethodCall (s : String) : Bool :=
  decide (1 < (s.splitOn "()").length)

/-- `prop.replace('()', '')`: JS string `replace` removes only the first
occurrence of the pattern. -/
def segMethodName (s : String) : String :=
  match s.splitOn "()" with
  | [] => s
  | [a] => a
  | a :: b :: rest => a ++ b ++ rest.foldl (fun acc part => acc ++ "()" ++ part) ""

/-- One string-literal `registerClassHook`/`registerClassOverrideHook`
call-site. -/
structure RegistrationSite where
  className : String
  methodName : String
  file : String
deriving DecidableEq, Repr

/-- Usage keyed by hook name, read per key. -/
abbrev UsageMap := String → Option HookUsageEntry

/-- The chain-splitting loop body (lines 950-976; its three branches are
identical): a segment carrying a call marker joins the method set with the
marker removed, any other segment joins the property set. -/
def chainStep (e : HookUsageEntry) (prop : String) : HookUsageEntry :=
  if segIsMethodCall prop then
    { e with methods := ssetAdd e.methods (segMethodName prop) }
  else
    { e with properties := ssetAdd e.properties prop }

/-- Lines 941-976 for one dependency: add the relativized file and the full
expression, flip `fromDirectAccess` on a direct dependency, then split the
property chain. -/
def applyDepToEntry (rel : String → String) (e : HookUsageEntry)
    (dep : GameHookDependency) : HookUsageEntry :=
  let e := { e with files := ssetAdd e.files (rel dep.file)
                    fullExpressions := ssetAdd e.fullExpressions dep.fullExpression }
  let e := if dep.isDirect then { e with fromDirectAccess := true } else e
  dep.propertyChain.foldl chainStep e

/-- The entry created at lines 930-939 when a hook name is first seen. -/
def freshDepEntry (dep : GameHookDependency) : HookUsageEntry :=
  { properties := [], methods := [], fullExpressions := [], files := []
    fromDirectAccess := dep.isDirect, fromHookRegistration := false }

/-- One iteration of the dependency loop (lines 929-977). -/
def addDep (rel : String → String) (u : UsageMap) (dep : GameHookDependency) : UsageMap :=
  fun h =>
    if h == dep.hookName then
      some (applyDepToEntry rel ((u dep.hookName).getD (freshDepEntry dep)) dep)
    else u h

/-- The dependency phase of the aggregation. -/
def buildDepUsage (rel : String → String) (deps : List GameHookDependency) : UsageMap :=
  deps.foldl (addDep rel) (fun _ => none)

/-- The entry created for a hook first seen via a registration call
(lines 297-305). -/
def freshRegEntry : HookUsageEntry :=
  { properties := [], methods := [], fullExpressions := [], files := []
    fromDirectAccess := false, fromHookRegistration := true }

/-- One registration call-site: add its method and its relativized file
(lines 307-308 with the cross-file merge of lines 918-923). -/
def addReg (rel : String → String) (u : UsageMap) (r : RegistrationSite) : UsageMap :=
  fun h =>
    if h == r.className then
      let e := (u r.className).getD freshRegEntry
      some { e with methods := ssetAdd e.methods r.methodName
                    files := ssetAdd e.files (rel r.file)
                    fromHookRegistration := true }
    else u h

/-- The registration phase of the aggregation. -/
def buildRegUsage (rel : String → String) (regs : List RegistrationSite) : UsageMap :=
  regs.foldl (addReg rel) (fun _ => none)

/-- The final merge of registrations into usage (lines 979-991): a hook seen
only via registrations keeps its registration entry; one seen both ways
unions methods and files and sets `fromHookRegistration`. -/
def mergeRegIntoUsage (du ru : UsageMap) : UsageMap := fun h =>
  match du h, ru h with
  | none, r => r
  | some e, none => some e
  | some e, some r =>
    some { e with methods := r.methods.foldl ssetAdd e.methods
                  files := r.files.foldl ssetAdd e.files
                  fromHookRegistration := true }

/-- The whole aggregation pipeline. -/
def finalUsage (rel : String → String) (deps : List GameHookDependency)
    (regs : List RegistrationSite) : UsageMap :=
  mergeRegIntoUsage (buildDepUsage rel deps) (buildRegUsage rel regs)

/-- Equality of JS `Set` contents (membership, ignoring insertion order). -/
def sameElems (l1 l2 : List String) : Prop := ∀ x, x ∈ l1 ↔ x ∈ l2

/-- Aggregate equality in the sense of the spec: same property set, method
set, expression set, file set and provenance flags. -/
def entryEq (a b : HookUsageEntry) : Prop :=
  sameElems a.properties b.properties ∧ sameElems a.methods b.methods ∧
  sameElems a.fullExpressions b.fullExpressions ∧ sameElems a.files b.files ∧
  a.fromDirectAccess = b.fromDirectAccess ∧ a.fromHookRegistration = b.fromHookRegistration

/-- Aggregate equality lifted to optional entries. -/
def entryEquiv : Option HookUsageEntry → Option HookUsageEntry → Prop
  | none, none => True
  | some a, some b => entryEq a b
  | _, _ => False

/-- Aggregate equality of whole usage maps, per hook name. -/
def usageEquiv (u v : UsageMap) : Prop := ∀ h, entryEquiv (u h) (v h)

theorem mem_ssetAdd (l : List String) (x y : String) :
    y ∈ ssetAdd l x ↔ y ∈ l ∨ y = x := by
  unfold ssetAdd
  split
  · rename_i hmem
    constructor
    · exact Or.inl
    · rintro (h | rfl)
      · exact h
      · exact hmem
  · simp

theorem mem_foldl_ssetAdd (l : List String) :
    ∀ (e : List String) (y : String), y ∈ l.foldl ssetAdd e ↔ y ∈ e ∨ y ∈ l := by
  induction l with
  | nil => simp
  | cons x xs ih =>
    intro e y
    rw [List.foldl_cons, ih, mem_ssetAdd]
    simp only [List.mem_cons]
    tauto

theorem chainStep_properties (e : HookUsageEntry) (s : String) :
    (chainStep e s).properties =
      if segIsMethodCall s then e.properties else ssetAdd e.properties s := by
  unfold chainStep
  split <;> simp_all

theorem chainStep_methods (e : HookUsageEntry) (s : String) :
    (chainStep e s).methods =
      if segIsMethodCall s then ssetAdd e.methods (segMethodName s) else e.methods := by
  unfold chainStep
  split <;> simp_all

theorem chainStep_files (e : HookUsageEntry) (s : String) :
    (chainStep e s).files = e.files := by
  unfold chainStep
  split <;> rfl

theorem chainStep_fullExpressions (e : HookUsageEntry) (s : String) :
    (chainStep e s).fullExpressions = e.fullExpressions := by
  unfold chainStep
  split <;> rfl

theorem chainStep_fromDirectAccess (e : HookUsageEntry) (s : String) :
    (chainStep e s).fromDirectAccess = e.fromDirectAccess := by
  unfold chainStep
  split <;> rfl

theorem chainStep_fromHookRegistration (e : HookUsageEntry) (s : String) :
    (chainStep e s).fromHookRegistration = e.fromHookRegistration := by
  unfold chainStep
  split <;> rfl

theorem chainFold_properties (chain : List String) :
    ∀ (e : HookUsageEntry) (y : String),
      y ∈ (chain.foldl chainStep e).properties ↔
        y ∈ e.properties ∨ y ∈ chain.filter (fun s => !segIsMethodCall s) := by
  induction chain with
  | nil => simp
  | cons s ss ih =>
    intro e y
    rw [List.foldl_cons, ih]
    rcases hs : segIsMethodCall s with _ | _ <;>
      simp [List.filter_cons, hs, chainStep_properties, mem_ssetAdd] <;>
      tauto

theorem chainFold_methods (chain : List String) :
    ∀ (e : HookUsageEntry) (y : String),
      y ∈ (chain.foldl chainStep e).methods ↔
        y ∈ e.methods ∨ y ∈ (chain.filter segIsMethodCall).map segMethodName := by
  induction chain with
  | nil => simp
  | cons s ss ih =>
    intro e y
    rw [List.foldl_cons, ih]
    rcases hs : segIsMethodCall s with _ | _ <;>
      simp [List.filter_cons, hs, chainStep_methods, mem_ssetAdd] <;>
      tauto

theorem chainFold_files (chain : List String) :
    ∀ (e : HookUsageEntry), (chain.foldl chainStep e).files = e.files := by
  induction chain with
  | nil => intro e; rfl
  | cons s ss ih =>
    intro e
    rw [List.foldl_cons, ih, chainStep_files]

theorem chainFold_fullExpressions (chain : List String) :
    ∀ (e : HookUsageEntry), (chain.foldl chainStep e).fullExpressions = e.fullExpressions := by
  induction chain with
  | nil => intro e; rfl
  | cons s ss ih =>
    intro e
    rw [List.foldl_cons, ih, chainStep_fullExpressions]

theorem chainFold_fromDirectAccess (chain : List String) :
    ∀ (e : HookUsageEntry), (chain.foldl chainStep e).fromDirectAccess = e.fromDirectAccess := by
  induction chain with
  | nil => intro e; rfl
  | cons s ss ih =>
    intro e
    rw [List.foldl_cons, ih, chainStep_fromDirectAccess]

theorem chainFold_fromHookRegistration (chain : List String) :
    ∀ (e : HookUsageEntry),
      (chain.foldl chainStep e).fromHookRegistration = e.fromHookRegistration := by
  induction chain with
  | nil => intro e; rfl
  | cons s ss ih =>
    intro e
    rw [List.foldl_cons, ih, chainStep_fromHookRegistration]

theorem applyDep_properties (rel : String → String) (e : HookUsageEntry)
    (dep : GameHookDependency) (y : String) :
    y ∈ (applyDepToEntry rel e dep).properties ↔
      y ∈ e.properties ∨ y ∈ dep.propertyChain.filter (fun s => !segIsMethodCall s) := by
  unfold applyDepToEntry
  rw [chainFold_properties]
  rcases dep.isDirect <;> simp

theorem applyDep_methods (rel : String → String) (e : HookUsageEntry)
    (dep : GameHookDependency) (y : String) :
    y ∈ (applyDepToEntry rel e dep).methods ↔
      y ∈ e.methods ∨ y ∈ (dep.propertyChain.filter segIsMethodCall).map segMethodName := by
  unfold applyDepToEntry
  rw [chainFold_methods]
  rcases dep.isDirect <;> simp

theorem applyDep_files (rel : String → String) (e : HookUsageEntry)
    (dep : GameHookDependency) (y : String) :
    y ∈ (applyDepToEntry rel e dep).files ↔ y ∈ e.files ∨ y = rel dep.file := by
  unfold applyDepToEntry
  rw [chainFold_files]
  rcases dep.isDirect <;> simp [mem_ssetAdd]

theorem applyDep_fullExpressions (rel : String → String) (e : HookUsageEntry)
    (dep : GameHookDependency) (y : String) :
    y ∈ (applyDepToEntry rel e dep).fullExpressions ↔
      y ∈ e.fullExpressions ∨ y = dep.fullExpression := by
  unfold applyDepToEntry
  rw [chainFold_fullExpressions]
  rcases dep.isDirect <;> simp [mem_ssetAdd]

theorem applyDep_fromDirectAccess (rel : String → String) (e : HookUsageEntry)
    (dep : GameHookDependency) :
    (applyDepToEntry rel e dep).fromDirectAccess
      = (e.fromDirectAccess || dep.isDirect) := by
  unfold applyDepToEntry
  rw [chainFold_fromDirectAccess]
  rcases dep.isDirect <;> simp

theorem applyDep_fromHookRegistration (rel : String → String) (e : HookUsageEntry)
    (dep : GameHookDependency) :
    (applyDepToEntry rel e dep).fromHookRegistration = e.fromHookRegistration := by
  unfold applyDepToEntry
  rw [chainFold_fromHookRegistration]
  rcases dep.isDirect <;> rfl

theorem sameElems_refl (l : List String) : sameElems l l := fun _ => Iff.rfl

theorem sameElems_trans {a b c : List String} (h1 : sameElems a b) (h2 : sameElems b c) :
    sameElems a c := fun x => (h1 x).trans (h2 x)

theorem entryEq_refl (e : HookUsageEntry) : entryEq e e :=
  ⟨sameElems_refl _, sameElems_refl _, sameElems_refl _, sameElems_refl _, rfl, rfl⟩

theorem entryEq_trans {a b c : HookUsageEntry} (h1 : entryEq a b) (h2 : entryEq b c) :
    entryEq a c := by
  obtain ⟨p1, m1, x1, f1, d1, r1⟩ := h1
  obtain ⟨p2, m2, x2, f2, d2, r2⟩ := h2
  exact ⟨sameElems_trans p1 p2, sameElems_trans m1 m2, sameElems_trans x1 x2,
    sameElems_trans f1 f2, d1.trans d2, r1.trans r2⟩

theorem entryEquiv_refl (o : Option HookUsageEntry) : entryEquiv o o := by
  cases o
  · trivial
  · exact entryEq_refl _

theorem entryEquiv_trans {a b c : Option HookUsageEntry}
    (h1 : entryEquiv a b) (h2 : entryEquiv b c) : entryEquiv a c := by
  cases a <;> cases b <;> cases c <;> first
    | trivial
    | exact h1.elim
    | exact h2.elim
    | exact entryEq_trans h1 h2

theorem usageEquiv_refl (u : UsageMap) : usageEquiv u u := fun _ => entryEquiv_refl _

theorem usageEquiv_trans {u v w : UsageMap} (h1 : usageEquiv u v) (h2 : usageEquiv v w) :
    usageEquiv u w := fun h => entryEquiv_trans (h1 h) (h2 h)

theorem entryEq_applyDep (rel : String → String) {e1 e2 : HookUsageEntry}
    (dep : GameHookDependency) (h : entryEq e1 e2) :
    entryEq (applyDepToEntry rel e1 dep) (applyDepToEntry rel e2 dep) := by
  obtain ⟨hp, hm, hx, hf, hd, hr⟩ := h
  refine ⟨?_, ?_, ?_, ?_, ?_, ?_⟩
  · intro y
    rw [applyDep_properties, applyDep_properties, hp y]
  · intro y
    rw [applyDep_methods, applyDep_methods, hm y]
  · intro y
    rw [applyDep_fullExpressions, applyDep_fullExpressions, hx y]
  · intro y
    rw [applyDep_files, applyDep_files, hf y]
  · rw [applyDep_fromDirectAccess, applyDep_fromDirectAccess, hd]
  · rw [applyDep_fromHookRegistration, applyDep_fromHookRegistration, hr]

/-- Applying two dependencies to set-equal entries in either order yields
set-equal entries, provided the accumulated direct flags agree. -/
theorem entryEq_applyDep_comm (rel : String → String) (e1 e2 : HookUsageEntry)
    (a b : GameHookDependency)
    (hp : sameElems e1.properties e2.properties)
    (hm : sameElems e1.methods e2.methods)
    (hx : sameElems e1.fullExpressions e2.fullExpressions)
    (hf : sameElems e1.files e2.files)
    (hd : (e1.fromDirectAccess || a.isDirect || b.isDirect)
        = (e2.fromDirectAccess || b.isDirect || a.isDirect))
    (hr : e1.fromHookRegistration = e2.fromHookRegistration) :
    entryEq (applyDepToEntry rel (applyDepToEntry rel e1 a) b)
      (applyDepToEntry rel (applyDepToEntry rel e2 b) a) := by
  refine ⟨?_, ?_, ?_, ?_, ?_, ?_⟩
  · intro y
    rw [applyDep_properties, applyDep_properties, applyDep_properties, applyDep_properties,
      hp y]
    tauto
  · intro y
    rw [applyDep_methods, applyDep_methods, applyDep_methods, applyDep_methods, hm y]
    tauto
  · intro y
    rw [applyDep_fullExpressions, applyDep_fullExpressions, applyDep_fullExpressions,
      applyDep_fullExpressions, hx y]
    tauto
  · intro y
    rw [applyDep_files, applyDep_files, applyDep_files, applyDep_files, hf y]
    tauto
  · rw [applyDep_fromDirectAccess, applyDep_fromDirectAccess, applyDep_fromDirectAccess,
      applyDep_fromDirectAccess, hd]
  · rw [applyDep_fromHookRegistration, applyDep_fromHookRegistration,
      applyDep_fromHookRegistration, applyDep_fromHookRegistration, hr]

theorem usageEquiv_addDep (rel : String → String) {u v : UsageMap}
    (dep : GameHookDependency) (h : usageEquiv u v) :
    usageEquiv (addDep rel u dep) (addDep rel v dep) := by
  intro hk
  unfold addDep
  by_cases hh : (hk == dep.hookName) = true
  · rw [if_pos hh, if_pos hh]
    have hhook := h dep.hookName
    rcases hu : u dep.hookName with _ | e1 <;> rcases hv : v dep.hookName with _ | e2 <;>
      rw [hu, hv] at hhook
    · exact entryEq_applyDep rel dep (entryEq_refl _)
    · exact hhook.elim
    · exact hhook.elim
    · exact entryEq_applyDep rel dep hhook
  · rw [if_neg hh, if_neg hh]
    exact h hk

theorem usageEquiv_addDep_swap (rel : String → String) (u : UsageMap)
    (a b : GameHookDependency) :
    usageEquiv (addDep rel (addDep rel u a) b) (addDep rel (addDep rel u b) a) := by
  intro hk
  unfold addDep
  by_cases hb : (hk == b.hookName) = true <;> by_cases ha : (hk == a.hookName) = true
  · -- hk = a.hookName = b.hookName
    have hkb : hk = b.hookName := by simpa using hb
    have hka : hk = a.hookName := by simpa using ha
    have hab : (b.hookName == a.hookName) = true := by
      simp [← hka, ← hkb]
    have hba : (a.hookName == b.hookName) = true := by
      simp [← hka, ← hkb]
    rw [if_pos hb, if_pos ha, if_pos hab, if_pos hba]
    have huu : u b.hookName = u a.hookName := by rw [← hka, ← hkb]
    rcases hu : u a.hookName with _ | e
    · rw [huu, hu]
      refine entryEq_applyDep_comm rel _ _ a b (sameElems_refl _) (sameElems_refl _)
        (sameElems_refl _) (sameElems_refl _) ?_ rfl
      cases ha2 : a.isDirect <;> cases hb2 : b.isDirect <;>
        simp [freshDepEntry, ha2, hb2]
    · rw [huu, hu]
      refine entryEq_applyDep_comm rel _ _ a b (sameElems_refl _) (sameElems_refl _)
        (sameElems_refl _) (sameElems_refl _) ?_ rfl
      cases he : e.fromDirectAccess <;> cases ha2 : a.isDirect <;> cases hb2 : b.isDirect <;>
        simp [he, ha2, hb2]
  · -- hk = b.hookName ≠ a.hookName
    have hkb : hk = b.hookName := by simpa using hb
    have hba : (b.hookName == a.hookName) = false := by
      rw [← hkb]
      simpa using ha
    rw [if_pos hb, if_neg ha, if_pos hb, hba]
    simp only [Bool.false_eq_true, if_false]
    exact entryEquiv_refl _
  · -- hk = a.hookName ≠ b.hookName
    have hka : hk = a.hookName := by simpa using ha
    have hab : (a.hookName == b.hookName) = false := by
      rw [← hka]
      simpa using hb
    rw [if_neg hb, if_pos ha, if_pos ha, hab]
    simp only [Bool.false_eq_true, if_false]
    exact entryEquiv_refl _
  · rw [if_neg hb, if_neg ha, if_neg ha, if_neg hb]
    exact entryEquiv_refl _

theorem usageEquiv_foldl_addDep (rel : String → String) (l : List GameHookDependency) :
    ∀ {u v : UsageMap}, usageEquiv u v →
      usageEquiv (l.foldl (addDep rel) u) (l.foldl (addDep rel) v) := by
  induction l with
  | nil => intro u v h; exact h
  | cons d l ih => intro u v h; exact ih (usageEquiv_addDep rel d h)

/-- Permuting the dependency list leaves every per-hook aggregate unchanged
(as sets). -/
theorem usageEquiv_foldl_dep_perm (rel : String → String)
    {l1 l2 : List GameHookDependency} (hp : l1.Perm l2) :
    ∀ u : UsageMap, usageEquiv (l1.foldl (addDep rel) u) (l2.foldl (addDep rel) u) := by
  induction hp with
  | nil => intro u; exact usageEquiv_refl _
  | cons x _ ih => intro u; exact ih (addDep rel u x)
  | swap x y l =>
    intro u
    exact usageEquiv_foldl_addDep rel l (usageEquiv_addDep_swap rel u y x)
  | trans _ _ ih1 ih2 => intro u; exact usageEquiv_trans (ih1 u) (ih2 u)

theorem usageEquiv_addReg (rel : String → String) {u v : UsageMap}
    (r : RegistrationSite) (h : usageEquiv u v) :
    usageEquiv (addReg rel u r) (addReg rel v r) := by
  intro hk
  unfold addReg
  by_cases hh : (hk == r.className) = true
  · rw [if_pos hh, if_pos hh]
    have hhook := h r.className
    rcases hu : u r.className with _ | e1 <;> rcases hv : v r.className with _ | e2 <;>
      rw [hu, hv] at hhook
    · exact entryEq_refl _
    · exact hhook.elim
    · exact hhook.elim
    · obtain ⟨hp, hm, hx, hf, hd, hr2⟩ := hhook
      refine ⟨hp, ?_, hx, ?_, hd, rfl⟩
      · intro y
        simp only [Option.getD_some]
        rw [mem_ssetAdd, mem_ssetAdd, hm y]
      · intro y
        simp only [Option.getD_some]
        rw [mem_ssetAdd, mem_ssetAdd, hf y]
  · rw [if_neg hh, if_neg hh]
    exact h hk

theorem usageEquiv_addReg_swap (rel : String → String) (u : UsageMap)
    (a b : RegistrationSite) :
    usageEquiv (addReg rel (addReg rel u a) b) (addReg rel (addReg rel u b) a) := by
  intro hk
  unfold addReg
  by_cases hb : (hk == b.className) = true <;> by_cases ha : (hk == a.className) = true
  · have hkb : hk = b.className := by simpa using hb
    have hka : hk = a.className := by simpa using ha
    have hab : (b.className == a.className) = true := by simp [← hka, ← hkb]
    have hba : (a.className == b.className) = true := by simp [← hka, ← hkb]
    rw [if_pos hb, if_pos ha, if_pos hab, if_pos hba]
    have huu : u b.className = u a.className := by rw [← hka, ← hkb]
    rcases hu : u a.className with _ | e <;> rw [huu, hu] <;>
      refine ⟨sameElems_refl _, ?_, sameElems_refl _, ?_, rfl, rfl⟩ <;>
      intro y <;>
      simp only [Option.getD_some, Option.getD_none] <;>
      rw [mem_ssetAdd, mem_ssetAdd, mem_ssetAdd, mem_ssetAdd] <;>
      tauto
  · have hkb : hk = b.className := by simpa using hb
    have hba : (b.className == a.className) = false := by
      rw [← hkb]
      simpa using ha
    rw [if_pos hb, if_neg ha, if_pos hb, hba]
    simp only [Bool.false_eq_true, if_false]
    exact entryEquiv_refl _
  · have hka : hk = a.className := by simpa using ha
    have hab : (a.className == b.className) = false := by
      rw [← hka]
      simpa using hb
    rw [if_neg hb, if_pos ha, if_pos ha, hab]
    simp only [Bool.false_eq_true, if_false]
    exact entryEquiv_refl _
  · rw [if_neg hb, if_neg ha, if_neg ha, if_neg hb]
    exact entryEquiv_refl _

theorem usageEquiv_foldl_addReg (rel : String → String) (l : List RegistrationSite) :
    ∀ {u v : UsageMap}, usageEquiv u v →
      usageEquiv (l.foldl (addReg rel) u) (l.foldl (addReg rel) v) := by
  induction l with
  | nil => intro u v h; exact h
  | cons r l ih => intro u v h; exact ih (usageEquiv_addReg rel r h)

/-- Permuting the registration call-sites leaves every per-hook aggregate
unchanged (as sets). -/
theorem usageEquiv_foldl_reg_perm (rel : String → String)
    {l1 l2 : List RegistrationSite} (hp : l1.Perm l2) :
    ∀ u : UsageMap, usageEquiv (l1.foldl (addReg rel) u) (l2.foldl (addReg rel) u) := by
  induction hp with
  | nil => intro u; exact usageEquiv_refl _
  | cons x _ ih => intro u; exact ih (addReg rel u x)
  | swap x y l =>
    intro u
    exact usageEquiv_foldl_addReg rel l (usageEquiv_addReg_swap rel u y x)
  | trans _ _ ih1 ih2 => intro u; exact usageEquiv_trans (ih1 u) (ih2 u)

theorem sameElems_foldl_ssetAdd {e1 e2 r1 r2 : List String}
    (he : sameElems e1 e2) (hr : sameElems r1 r2) :
    sameElems (r1.foldl ssetAdd e1) (r2.foldl ssetAdd e2) := by
  intro y
  rw [mem_foldl_ssetAdd, mem_foldl_ssetAdd, he y, hr y]

theorem usageEquiv_merge {du1 du2 ru1 ru2 : UsageMap}
    (hd : usageEquiv du1 du2) (hr : usageEquiv ru1 ru2) :
    usageEquiv (mergeRegIntoUsage du1 ru1) (mergeRegIntoUsage du2 ru2) := by
  intro h
  have hdh := hd h
  have hrh := hr h
  unfold mergeRegIntoUsage
  rcases h1 : du1 h with _ | e1 <;> rcases h2 : du2 h with _ | e2 <;>
    rw [h1, h2] at hdh <;>
    rcases h3 : ru1 h with _ | r1 <;> rcases h4 : ru2 h with _ | r2 <;>
    rw [h3, h4] at hrh
  · trivial
  · exact hrh.elim
  · exact hrh.elim
  · exact hrh
  · exact hdh.elim
  · exact hdh.elim
  · exact hdh.elim
  · exact hdh.elim
  · exact hdh.elim
  · exact hdh.elim
  · exact hdh.elim
  · exact hdh.elim
  · exact hdh
  · exact hrh.elim
  · exact hrh.elim
  · obtain ⟨hp, hm, hx, hf, hfd, hfr⟩ := hdh
    obtain ⟨-, hm2, -, hf2, -, -⟩ := hrh
    exact ⟨hp, sameElems_foldl_ssetAdd hm hm2, hx, sameElems_foldl_ssetAdd hf hf2, hfd, rfl⟩

/-- C6: the final per-hook-name aggregate — property set, method set, file
set, expression set, `fromDirectAccess`, `fromHookRegistration` — is the
same (as sets and flags) for every processing order of the dependencies
and of the registration call-sites; in particular two registration
call-sites for the same hook name merge to the same method set in either
order. -/
theorem claim_C6 (rel : String → String) (deps1 deps2 : List GameHookDependency)
    (regs1 regs2 : List RegistrationSite)
    (hd : deps1.Perm deps2) (hr : regs1.Perm regs2) :
    usageEquiv (finalUsage rel deps1 regs1) (finalUsage rel deps2 regs2) :=
  usageEquiv_merge (usageEquiv_foldl_dep_perm rel hd _) (usageEquiv_foldl_reg_perm rel hr _)

/-- First sample registration call-site for hook `H`. -/
def regSiteA : RegistrationSite :=
  { className := "H", methodName := "alpha", file := "core.ts" }

/-- Second sample registration call-site for hook `H`. -/
def regSiteB : RegistrationSite :=
  { className := "H", methodName := "beta", file := "plugin.ts" }

/-- Witness for C6: the two sample registration call-sites for hook `H`
processed in either order produce set-equal aggregates. -/
theorem claim_C6_witness :
    usageEquiv (finalUsage id [] [regSiteA, regSiteB])
      (finalUsage id [] [regSiteB, regSiteA]) :=
  claim_C6 id [] [] [regSiteA, regSiteB] [regSiteB, regSiteA]
    (List.Perm.refl []) (by decide)

/-! ### Client fetch and the error flow of the analysis run
(`obtainGameClient` in `src/utils/clientUtils.ts`, and the try/catch of
`analyzeGameHookDependencies`, lines 1039-1151)

The two network fetches are modelled as `Except`-valued inputs: the asset
manifest (carrying `data.latestClientVersion`) and the versioned client
bundle fetch. `analyzeGameHookDependencies` calls
`obtainGameClient(true)`, so the IndexedDB cache is skipped and
`clientLastVersion` is 0. A rejected fetch makes the corresponding
`Except` an `error`; `obtainGameClient` itself has no try/catch, so the
error flows through its `do`-binds. The caller wraps the whole client
phase in `try { ... } catch (error) { console.error(...) }` and then
returns `usage` normally, which the model renders by mapping the
propagated error to a logged `clientError` inside an `Except.ok` result.
The matching work inside the `try` does not affect the error flow and is
not replayed here. -/

/-- The asset-manifest payload field the fetcher reads. -/
structure AssetData where
  latestClientVersion : Nat
deriving DecidableEq, Repr

/-- The `document.client` accessor snippet spliced into the bundle
(clientUtils lines 24-33). -/
def injectedClientSnippet : String :=
  "; document.client = \x7b\x7d;"
    ++ "document.client.get = function(a) \x7b"
    ++ "return eval(a);"
    ++ "\x7d;"
    ++ "document.client.set = function(a, b) \x7b"
    ++ "eval(a + " ++ String.singleton (Char.ofNat 39) ++ " = "
    ++ String.singleton (Char.ofNat 39) ++ " + b);"
    ++ "\x7d;"

/-- The substring surgery of clientUtils lines 23-34: cut 9 characters
before the end and splice the snippet in. -/
def injectClientHooks (s : String) : String :=
  s.take (s.length - 9) ++ injectedClientSnippet ++ s.drop (s.length - 9)

/-- `obtainGameClient(true)` (clientUtils lines 3-47) with the two fetches
as explicit fallible inputs: read the manifest, and when the remote version
is newer than the (absent) cached version 0, fetch and instrument the
bundle; errors propagate — the function installs no handler. -/
def obtainGameClient (assets : Except String AssetData)
    (fetchClient : Nat → Except String String) : Except String String := do
  let clientLastVersion : Nat := 0
  let j ← assets
  if clientLastVersion < j.latestClientVersion then
    let raw ← fetchClient j.latestClientVersion
    pure (injectClientHooks raw)
  else
    pure ""

/-- What the analysis run produces: the usage aggregate it always returns,
plus the client-phase error that the catch block logged, if any. -/
structure AnalysisRun where
  usage : UsageMap
  clientError : Option String

/-- The error flow of `analyzeGameHookDependencies` (lines 881-1154): the
usage aggregate is built, then the client phase runs inside `try/catch`;
a client failure is caught at line 1149, logged, and the function still
returns `usage` — an `Except.error` result would require the error to
escape, which the catch prevents. -/
def analyzeGameHookDependenciesModel (rel : String → String)
    (deps : List GameHookDependency) (regs : List RegistrationSite)
    (assets : Except String AssetData) (fetchClient : Nat → Except String String) :
    Except String AnalysisRun :=
  Except.ok
    { usage := finalUsage rel deps regs
      clientError :=
        match obtainGameClient assets fetchClient with
        | Except.error e => some e
        | Except.ok _ => none }

/-- C8: counterexample. With the manifest fetch rejecting, the failure does
propagate out of `obtainGameClient`, but the analysis run still completes
normally (an `ok` result carrying the usage aggregate), with the error
merely logged by the catch block at line 1149 — the run is not aborted as
the claim states. -/
theorem claim_C8_counterexample :
    obtainGameClient (Except.error "network failure")
        (fun _ => Except.error "network failure")
      = Except.error "network failure" ∧
    analyzeGameHookDependenciesModel id [] [] (Except.error "network failure")
        (fun _ => Except.error "network failure")
      = Except.ok { usage := finalUsage id [] [], clientError := some "network failure" } :=
  ⟨rfl, rfl⟩

/-- C8 (amended): a fetch failure (of the manifest, or of the client bundle
when a newer version must be downloaded) propagates out of
`obtainGameClient` unhandled and without retry, but it is then caught by
the try/catch wrapping the client-analysis phase, reported via
`console.error`, and the analysis run completes normally, returning the
usage aggregate with only the matching phase skipped. -/
theorem claim_C8 :
    (∀ (e : String) (f : Nat → Except String String),
      obtainGameClient (Except.error e) f = Except.error e) ∧
    (∀ (v : Nat) (e : String), 0 < v →
      obtainGameClient (Except.ok { latestClientVersion := v })
        (fun _ => Except.error e) = Except.error e) ∧
    (∀ (rel : String → String) (deps : List GameHookDependency)
        (regs : List RegistrationSite) (e : String) (f : Nat → Except String String),
      analyzeGameHookDependenciesModel rel deps regs (Except.error e) f
        = Except.ok { usage := finalUsage rel deps regs, clientError := some e }) := by
  refine ⟨fun e f => rfl, ?_, fun rel deps regs e f => rfl⟩
  intro v e hv
  unfold obtainGameClient
  simp [Bind.bind, Except.bind, hv]

/-- Witness for C8: the versioned bundle fetch failing at remote version 1
propagates out of `obtainGameClient`. -/
theorem claim_C8_witness :
    obtainGameClient (Except.ok { latestClientVersion := 1 })
      (fun _ => Except.error "network failure") = Except.error "network failure" :=
  claim_C8.2.1 1 "network failure" (by decide)

end Highlite
